import Mathlib

/-!
Verification of the move-evaluation and move-selection engine of
`src/components/ChessGame.tsx` (MenaWANG/ChessGame).

The rules engine (chess.js) is an external collaborator: its answers to the
queries the component makes after a trial move (`board()`, `fen()`,
`isCheck()`, `isCheckmate()`, `isDraw()`, `moves({verbose:true})`) are
modelled as a `GameView` record, and move application as an oracle function.
The FEN serialization produced by the collaborator is modelled by `fenOf`,
a faithful standard FEN writer, because several evaluator functions pattern
match on that string.

All evaluator functions are translated directly from the source.  Where the
source declares the same function name twice (`evaluateAdvancedPosition`,
lines 470-499 and 834-873), JavaScript function-declaration hoisting makes
the second declaration the runtime binding; the first is kept here under the
name `evaluateAdvancedPositionOverridden`.
-/

namespace CG

/-- chess.js piece letters p/n/b/r/q/k. -/
inductive PieceType where
  | p | n | b | r | q | k
deriving DecidableEq, Repr

/-- chess.js colors 'w' / 'b'. -/
inductive PColor where
  | w | b
deriving DecidableEq, Repr

/-- One cell of the `board()` array: `{ type, color }`. -/
structure Piece where
  type : PieceType
  color : PColor
deriving DecidableEq, Repr

/-- `gameCopy.board()`: rows from rank 8 down to rank 1, each row files a..h. -/
abbrev Board := List (List (Option Piece))

/-- A verbose chess.js move object, with the fields the component reads
(`from`, `to`, `piece`, `captured`, `san`).  `from` and `to` are Lean
keywords, so the fields are called `fromSq` and `toSq`. -/
structure Move where
  fromSq : String
  toSq : String
  piece : PieceType
  captured : Option PieceType
  san : String
deriving DecidableEq, Repr

/-- The read-only queries the component performs on a position: the answers
of the external rules engine for that position. -/
structure GameView where
  board : Board
  fen : String
  isCheck : Bool
  isCheckmate : Bool
  isDraw : Bool
  moves : List Move
deriving DecidableEq

/-- `type Difficulty = 'Easy' | 'Medium' | 'Hard'` (line 127). -/
inductive Difficulty where
  | Easy | Medium | Hard
deriving DecidableEq, Repr

/-- `PIECE_VALUES` (lines 19-26). -/
def PIECE_VALUES : PieceType → ℤ
  | .p => 100
  | .n => 320
  | .b => 330
  | .r => 500
  | .q => 900
  | .k => 20000

/-- `PAWN_POSITION_SCORES` (lines 29-38). -/
def PAWN_POSITION_SCORES : List ℤ :=
  [0,  0,  0,  0,  0,  0,  0,  0,
   50, 50, 50, 50, 50, 50, 50, 50,
   10, 10, 20, 30, 30, 20, 10, 10,
   5,  5, 10, 25, 25, 10,  5,  5,
   0,  0,  0, 20, 20,  0,  0,  0,
   5, -5,-10,  0,  0,-10, -5,  5,
   5, 10, 10,-20,-20, 10, 10,  5,
   0,  0,  0,  0,  0,  0,  0,  0]

/-- `KNIGHT_POSITION_SCORES` (lines 40-49). -/
def KNIGHT_POSITION_SCORES : List ℤ :=
  [-50,-40,-30,-30,-30,-30,-40,-50,
   -40,-20,  0,  0,  0,  0,-20,-40,
   -30,  0, 10, 15, 15, 10,  0,-30,
   -30,  5, 15, 20, 20, 15,  5,-30,
   -30,  0, 15, 20, 20, 15,  0,-30,
   -30,  5, 10, 15, 15, 10,  5,-30,
   -40,-20,  0,  5,  5,  0,-20,-40,
   -50,-40,-30,-30,-30,-30,-40,-50]

/-- `BISHOP_POSITION_SCORES` (lines 52-61). -/
def BISHOP_POSITION_SCORES : List ℤ :=
  [-20,-10,-10,-10,-10,-10,-10,-20,
   -10,  5,  0,  0,  0,  0,  5,-10,
   -10, 10, 10, 10, 10, 10, 10,-10,
   -10,  0, 10, 10, 10, 10,  0,-10,
   -10,  5,  5, 10, 10,  5,  5,-10,
   -10,  0,  5, 10, 10,  5,  0,-10,
   -10,  0,  0,  0,  0,  0,  0,-10,
   -20,-10,-10,-10,-10,-10,-10,-20]

/-- `ROOK_POSITION_SCORES` (lines 63-72). -/
def ROOK_POSITION_SCORES : List ℤ :=
  [0,  0,  0,  5,  5,  0,  0,  0,
   -5,  0,  0,  0,  0,  0,  0, -5,
   -5,  0,  0,  0,  0,  0,  0, -5,
   -5,  0,  0,  0,  0,  0,  0, -5,
   -5,  0,  0,  0,  0,  0,  0, -5,
   -5,  0,  0,  0,  0,  0,  0, -5,
   5, 10, 10, 10, 10, 10, 10,  5,
   0,  0,  0,  0,  0,  0,  0,  0]

/-- `QUEEN_POSITION_SCORES` (lines 74-83). -/
def QUEEN_POSITION_SCORES : List ℤ :=
  [-20,-10,-10, -5, -5,-10,-10,-20,
   -10,  0,  0,  0,  0,  0,  0,-10,
   -10,  0,  5,  5,  5,  5,  0,-10,
   -5,  0,  5,  5,  5,  5,  0, -5,
   0,  0,  5,  5,  5,  5,  0, -5,
   -10,  5,  5,  5,  5,  5,  0,-10,
   -10,  0,  5,  0,  0,  0,  0,-10,
   -20,-10,-10, -5, -5,-10,-10,-20]

/-- `KING_MIDDLEGAME_SCORES` (lines 85-94). -/
def KING_MIDDLEGAME_SCORES : List ℤ :=
  [20, 30, 10,  0,  0, 10, 30, 20,
   20, 20,  0,  0,  0,  0, 20, 20,
   -10,-20,-20,-20,-20,-20,-20,-10,
   -20,-30,-30,-40,-40,-30,-30,-20,
   -30,-40,-40,-50,-50,-40,-40,-30,
   -30,-40,-40,-50,-50,-40,-40,-30,
   -30,-40,-40,-50,-50,-40,-40,-30,
   -30,-40,-40,-50,-50,-40,-40,-30]

/-- `KING_ENDGAME_SCORES` (lines 96-105). -/
def KING_ENDGAME_SCORES : List ℤ :=
  [-50,-30,-30,-30,-30,-30,-30,-50,
   -30,-30,  0,  0,  0,  0,-30,-30,
   -30,-10, 20, 30, 30, 20,-10,-30,
   -30,-10, 30, 40, 40, 30,-10,-30,
   -30,-10, 30, 40, 40, 30,-10,-30,
   -30,-10, 20, 30, 30, 20,-10,-30,
   -30,-20,-10,  0,  0,-10,-20,-30,
   -50,-40,-30,-20,-20,-30,-40,-50]

/-- `position[row][col]` with out-of-range access yielding an empty cell. -/
def cellAt (b : Board) (row col : ℕ) : Option Piece :=
  (b.getD row []).getD col none

/-- `String.prototype.includes(pat)`: literal substring containment.
The source passes regular-expression text to this method in several places;
`includes` does NOT interpret it as a pattern. -/
def strIncludes (s pat : String) : Bool :=
  decide (pat.data <:+: s.data)

/-- `fen.split(' ')[0]`: the piece-placement field of a FEN string. -/
def fenBoardField (fen : String) : List Char :=
  fen.data.takeWhile (fun c => c ≠ ' ')

/-- `isInEndgame` (lines 638-644).  NOTE: the regular expressions `/q/gi`
and `/[rnb]/gi` are matched against the ENTIRE fen string, so castling
rights, the side-to-move letter and the en-passant square letter are counted
as if they were pieces. -/
def isInEndgame (fen : String) : Bool :=
  let queens := fen.data.countP (fun c => c == 'q' || c == 'Q')
  let pieces := fen.data.countP
    (fun c => c == 'r' || c == 'n' || c == 'b' || c == 'R' || c == 'N' || c == 'B')
  queens == 0 || decide (pieces ≤ 6)

/-- The positional-table term of one board cell: the body of the `switch`
shared by `evaluatePosition` (lines 592-631) and the second
`evaluateAdvancedPosition` (lines 834-873); `kingEndg` selects the king
table. -/
def cellScore (kingEndg : Bool) (o : Option Piece) (sq : ℕ) : ℤ :=
  match o with
  | none => 0
  | some pc =>
    let t :=
      match pc.type with
      | .p => PAWN_POSITION_SCORES
      | .n => KNIGHT_POSITION_SCORES
      | .b => BISHOP_POSITION_SCORES
      | .r => ROOK_POSITION_SCORES
      | .q => QUEEN_POSITION_SCORES
      | .k => if kingEndg then KING_ENDGAME_SCORES else KING_MIDDLEGAME_SCORES
    if pc.color = PColor.b then t.getD (63 - sq) 0 else -(t.getD sq 0)

/-- The 8x8 `for` loops of `evaluatePosition` / second
`evaluateAdvancedPosition`, accumulating `cellScore` over
`square = row * 8 + col`. -/
def boardScan (kingEndg : Bool) (b : Board) : ℤ :=
  ((List.range 8).map (fun row =>
    ((List.range 8).map (fun col =>
      cellScore kingEndg (cellAt b row col) (row * 8 + col))).sum)).sum

/-- Number of occupied cells the 8x8 scan visits (used only to state
piece-count bounds; not a source function). -/
def pieceCount (b : Board) : ℕ :=
  ((List.range 8).map (fun row =>
    ((List.range 8).map (fun col =>
      if cellAt b row col = none then 0 else 1)).sum)).sum

/-- `evaluatePosition` (lines 592-631): board scan whose king table is
selected by `isInEndgame(gameCopy)`. -/
def evaluatePosition (g : GameView) : ℤ :=
  boardScan (isInEndgame g.fen) g.board

/-- The SECOND `evaluateAdvancedPosition` declaration (lines 834-873).
In JavaScript it overrides the first declaration (lines 470-499), so this is
the function actually invoked by `evaluateAllMoves` for the Hard tier.  The
call site (line 288) passes only `gameCopy`, leaving `isEndgame` undefined,
which is falsy in the `if (isEndgame)` test. -/
def evaluateAdvancedPosition (g : GameView) (isEndgame : Bool) : ℤ :=
  boardScan isEndgame g.board

/-- `'a'.charCodeAt(0)`-style column index of `move.to` (line 673). -/
def toColIdx (t : String) : ℤ :=
  ((t.data.getD 0 ' ').toNat : ℤ) - 97

/-- `8 - parseInt(move.to[1])`: row index of `move.to` (line 672). -/
def toRowIdx (t : String) : ℤ :=
  8 - (((t.data.getD 1 ' ').toNat : ℤ) - 48)

/-- Is this cell the black king? (`piece.type === 'k' && piece.color === 'b'`). -/
def isBlackKing (o : Option Piece) : Bool :=
  match o with
  | some pc => pc.type == PieceType.k && pc.color == PColor.b
  | none => false

/-- The king-location scan of `countAttacksNearKing` (lines 655-666): first
black king in row-major order, `(-1, -1)` when absent (the loops break on
the first hit). -/
def findBlackKing (b : Board) : ℤ × ℤ :=
  match (List.range 8).findSome? (fun row =>
    ((List.range 8).find? (fun col => isBlackKing (cellAt b row col))).map
      (fun col => ((row : ℤ), (col : ℤ)))) with
  | some pr => pr
  | none => (-1, -1)

/-- `countAttacksNearKing` (lines 651-680): count the legal moves of the
position whose destination lies within Chebyshev distance 1 of the black
king. -/
def countAttacksNearKing (g : GameView) : ℕ :=
  let kp := findBlackKing g.board
  g.moves.countP (fun m =>
    decide ((toRowIdx m.toSq - kp.1).natAbs ≤ 1) &&
    decide ((toColIdx m.toSq - kp.2).natAbs ≤ 1))

/-- `evaluateKingSafety` (lines 571-585).  NOTE: the castling test uses
`String.prototype.includes` with the literal text `'k.*?r'` / `'r.*?k'`;
no FEN string contains those substrings, so the +60 reward is dead code. -/
def evaluateKingSafety (g : GameView) (isEndgame : Bool) : ℤ :=
  if isEndgame then 0
  else
    (if strIncludes g.fen "k.*?r" || strIncludes g.fen "r.*?k" then 60 else 0)
    - 10 * (countAttacksNearKing g : ℤ)

/-- One scanning step of the global lazy regular expression
`/X[1-8].*?p/g` used by `evaluatePawnStructure` (line 550): `seeking` is
true after `X` followed by a digit 1-8 has been seen and the engine is
lazily consuming characters up to the first `'p'`; each completed match
bumps the count and matching resumes after the `'p'`. -/
def countFRgo (x : Char) : List Char → Bool → ℕ
  | [], _ => 0
  | c :: cs, true => if c = 'p' then 1 + countFRgo x cs false else countFRgo x cs true
  | _ :: [], false => 0
  | c :: d :: rest, false =>
    if c = x ∧ '1' ≤ d ∧ d ≤ '8' then countFRgo x rest true
    else countFRgo x (d :: rest) false

/-- `(position.match(new RegExp(file + '[1-8].*?p', 'g')) || []).length`. -/
def countFR (x : Char) (s : List Char) : ℕ :=
  countFRgo x s false

/-- `'abcdefgh'.split('')` (line 547). -/
def fileLetters : List Char := ['a', 'b', 'c', 'd', 'e', 'f', 'g', 'h']

/-- The literal string `file + '[1-8].*?p'` passed to `includes` (lines
554-557); it contains regex metacharacters and is never a substring of a
FEN board field. -/
def litPat (f : Char) : List Char :=
  [f, '[', '1', '-', '8', ']', '.', '*', '?', 'p']

/-- Per-file body of the `files.forEach` in `evaluatePawnStructure`
(lines 548-560), indexed by the file position `i` so that the
`files.indexOf(file) - 1` neighbour lookups are exact. -/
def filePenalty (position : List Char) (i : ℕ) : ℤ :=
  let f := fileLetters.getD i 'a'
  (if countFR f position > 1 then -20 else 0) +
  (if decide (litPat f <:+: position) then
    (if (decide (f ≠ 'a') && decide (litPat (fileLetters.getD (i - 1) 'a') <:+: position))
        || (decide (f ≠ 'h') && decide (litPat (fileLetters.getD (i + 1) 'a') <:+: position))
     then 0 else -15)
   else 0)

/-- `evaluatePawnStructure` (lines 541-563), the coarse Intermediate-tier
pawn evaluator, working on the FEN board field. -/
def evaluatePawnStructure (g : GameView) : ℤ :=
  let position := fenBoardField g.fen
  ((List.range 8).map (fun i => filePenalty position i)).sum

/-- Is there a black pawn at `(row, col)`? -/
def isBlackPawn (o : Option Piece) : Bool :=
  match o with
  | some pc => pc.type == PieceType.p && pc.color == PColor.b
  | none => false

/-- Is there a pawn of either color at the cell (the colorless
`position[r][col]?.type === 'p'` test of line 905)? -/
def isAnyPawn (o : Option Piece) : Bool :=
  match o with
  | some pc => pc.type == PieceType.p
  | none => false

/-- Black pawns in file `col` (lines 881-890). -/
def blackPawnsInFile (b : Board) (col : ℕ) : ℕ :=
  ((List.range 8).map (fun row => if isBlackPawn (cellAt b row col) then 1 else 0)).sum

/-- The per-file isolated/passed analysis of `evaluateAdvancedPawnStructure`
(lines 893-935).  `isPassed` is cleared when some black pawn of the file has
ANY pawn on a smaller row index (line 904 checks `r < row`, and line 905
tests type only, not color). -/
def advFileScore (b : Board) (col : ℕ) : ℤ :=
  let hasPawn := (List.range 8).any (fun row => isBlackPawn (cellAt b row col))
  let isPassed := !(List.range 8).any (fun row =>
    isBlackPawn (cellAt b row col) &&
    (List.range row).any (fun r => isAnyPawn (cellAt b r col)))
  let isIsolated :=
    !((decide (0 < col) && (List.range 8).any (fun row => isBlackPawn (cellAt b row (col - 1)))) ||
      (decide (col < 7) && (List.range 8).any (fun row => isBlackPawn (cellAt b row (col + 1)))))
  if hasPawn then (if isIsolated then -25 else 0) + (if isPassed then 50 else 0) else 0

/-- `evaluateAdvancedPawnStructure` (lines 876-938). -/
def evaluateAdvancedPawnStructure (g : GameView) : ℤ :=
  ((List.range 8).map (fun col => if blackPawnsInFile g.board col > 1 then -30 else 0)).sum +
  ((List.range 8).map (fun col => advFileScore g.board col)).sum

/-- `centerSquares` (line 689). -/
def centerSquares : List String := ["d4", "d5", "e4", "e5"]

/-- `extendedCenter` (line 690). -/
def extendedCenter : List String :=
  ["c3", "c4", "c5", "c6", "d3", "d6", "e3", "e6", "f3", "f4", "f5", "f6"]

/-- `evaluateCenterControl` (lines 687-704): a square is controlled when
some legal move of the position lands on it. -/
def evaluateCenterControl (g : GameView) : ℤ :=
  10 * (centerSquares.countP (fun sq => g.moves.any (fun m => m.toSq == sq)) : ℤ) +
  5 * (extendedCenter.countP (fun sq => g.moves.any (fun m => m.toSq == sq)) : ℤ)

/-- Per-move body of the `moves.forEach` in `evaluateOpeningPrinciples`
(lines 511-516). -/
def openingContrib (w : ℚ) (m : Move) : ℚ :=
  (if m.piece = PieceType.n ∨ m.piece = PieceType.b then 30 * w else 0) +
  (if strIncludes m.san "O-O" || strIncludes m.san "O-O-O" then 40 * w else 0) +
  (if m.piece = PieceType.q ∧ m.captured = none then -30 * w else 0) +
  (if m.piece = PieceType.p ∧ ["d4", "d5", "e4", "e5"].contains m.toSq then 25 * w else 0)

/-- `evaluateOpeningPrinciples` (lines 507-519). -/
def evaluateOpeningPrinciples (g : GameView) (w : ℚ) : ℚ :=
  (g.moves.map (openingContrib w)).sum

/-- `evaluateThreats` (lines 526-534): reduce over the reply moves, taking
the max value of `nextMove.captured || 'p'` whenever the reply captures or
the position is already check. -/
def evaluateThreats (g : GameView) : ℤ :=
  g.moves.foldl (fun mx nm =>
    if nm.captured.isSome || g.isCheck then
      max mx (PIECE_VALUES (nm.captured.getD PieceType.p))
    else mx) 0

/-- The king-locating double loop of `evaluateEndgamePosition` (lines
945-960); no `break`, so the LAST king found in row-major order wins. -/
def findKingsLast (b : Board) : Option (ℕ × ℕ) × Option (ℕ × ℕ) :=
  (List.range 8).foldl (fun acc row =>
    (List.range 8).foldl (fun acc2 col =>
      match cellAt b row col with
      | some pc =>
        if pc.type = PieceType.k then
          if pc.color = PColor.b then (some (row, col), acc2.2) else (acc2.1, some (row, col))
        else acc2
      | none => acc2) acc) (none, none)

/-- `isDrawnPosition` (lines 984-989): at most 3 non-king pieces in the FEN
board field. -/
def isDrawnPosition (g : GameView) : Bool :=
  decide ((fenBoardField g.fen).countP (fun c =>
    c == 'p' || c == 'r' || c == 'n' || c == 'b' || c == 'q' ||
    c == 'P' || c == 'R' || c == 'N' || c == 'B' || c == 'Q') ≤ 3)

/-- `evaluateEndgamePosition` (lines 941-981). -/
def evaluateEndgamePosition (g : GameView) : ℚ :=
  match findKingsLast g.board with
  | (some bk, some wk) =>
    let bdist : ℚ := max |((bk.1 : ℚ)) - 3.5| |((bk.2 : ℚ)) - 3.5|
    let kdist : ℚ := max |((bk.1 : ℚ)) - ((wk.1 : ℚ))| |((bk.2 : ℚ)) - ((wk.2 : ℚ))|
    bdist * 10 - (if isDrawnPosition g then kdist * 5 else 0)
  | _ => 0

/-- `evaluateBasicPosition` (lines 427-441): the base term shared by all
tiers in `evaluateAllMoves`.  The capture term is TWICE the captured piece's
value; there is no capturer-relative bonus here. -/
def evaluateBasicPosition (m : Move) (g : GameView) : ℚ :=
  (match m.captured with
   | some c => (PIECE_VALUES c : ℚ) * 2
   | none => 0) +
  (if g.isCheck then 50 else 0) +
  (if g.isCheckmate then 10000 else 0) +
  (if g.isDraw then -5000 else 0)

/-- `evaluateIntermediatePosition` (lines 448-463). -/
def evaluateIntermediatePosition (g : GameView) (histLen : ℕ) : ℚ :=
  (evaluatePosition g : ℚ) +
  (evaluateKingSafety g (isInEndgame g.fen) : ℚ) +
  (evaluatePawnStructure g : ℚ) +
  (g.moves.length : ℚ) * 2 +
  (if histLen < 10 then evaluateOpeningPrinciples g 1 else 0)

/-- The FIRST `evaluateAdvancedPosition` declaration (lines 470-499).  It is
shadowed at runtime by the second declaration (lines 834-873) and is
therefore dead code; it is the composition the specification describes for
the Hard tier. -/
def evaluateAdvancedPositionOverridden (g : GameView) (histLen : ℕ) : ℚ :=
  let isEndg := isInEndgame g.fen
  (evaluatePosition g : ℚ) * 2 +
  (evaluateKingSafety g isEndg : ℚ) * 3 +
  (evaluateAdvancedPawnStructure g : ℚ) * 2 +
  (g.moves.length : ℚ) * 5 +
  (evaluateCenterControl g : ℚ) * 15 +
  (if histLen < 15 then evaluateOpeningPrinciples g 2 else 0) +
  (if isEndg then evaluateEndgamePosition g * 2 else 0) -
  (evaluateThreats g : ℚ)

/-- The per-candidate score computed by `evaluateAllMoves` (lines 271-295):
`g` is the view of the position AFTER the candidate has been played, `j`
models the fresh `Math.random()` draw in `[0, 1)`.  The Hard branch invokes
`evaluateAdvancedPosition(gameCopy)` with ONE argument, so the runtime
(second) declaration runs with `isEndgame` undefined, i.e. falsy. -/
def scoreOf (d : Difficulty) (histLen : ℕ) (m : Move) (g : GameView) (j : ℚ) : ℚ :=
  match d with
  | .Easy => evaluateBasicPosition m g + j * 50
  | .Medium => evaluateBasicPosition m g + evaluateIntermediatePosition g histLen + j * 20
  | .Hard => evaluateBasicPosition m g + (evaluateAdvancedPosition g false : ℚ) + j * 5

/-- `{ move, score }` (line 293). -/
structure ScoredMove where
  move : Move
  score : ℚ
deriving DecidableEq

/-- Stable insertion preserving descending score order: the element goes in
front of the first entry whose score is not larger, which is exactly where
the (stable, ES2019) `Array.prototype.sort` with comparator
`(a, b) => b.score - a.score` keeps it. -/
def insertDesc (x : ScoredMove) : List ScoredMove → List ScoredMove
  | [] => [x]
  | y :: ys => if y.score ≤ x.score then x :: y :: ys else y :: insertDesc x ys

/-- The stable descending-by-score sort at line 294. -/
def sortDesc (l : List ScoredMove) : List ScoredMove :=
  l.foldr insertDesc []

/-- The mutable working copy owned by the scoring pass: chess.js keeps an
undo stack, `move` pushes the current position, `undo` pops it. -/
structure EngineSt where
  view : GameView
  hist : List GameView
deriving DecidableEq

/-- `gameCopy.move(move)`: the oracle `ap` answers with the post-move view;
the previous view is pushed on the undo stack. -/
def chessMove (ap : GameView → Move → GameView) (m : Move) (s : EngineSt) : EngineSt :=
  ⟨ap s.view m, s.view :: s.hist⟩

/-- `gameCopy.undo()`: pop the undo stack. -/
def chessUndo (s : EngineSt) : EngineSt :=
  match s.hist with
  | [] => s
  | v :: h => ⟨v, h⟩

/-- The `moves.map` body of `evaluateAllMoves` (lines 272-293): apply the
candidate, score the resulting view, undo, recurse.  `i` indexes the fresh
jitter draws. -/
def evalLoop (ap : GameView → Move → GameView) (d : Difficulty) (histLen : ℕ)
    (jit : ℕ → ℚ) : List Move → ℕ → EngineSt → List ScoredMove × EngineSt
  | [], _, s => ([], s)
  | m :: ms, i, s =>
    let s1 := chessMove ap m s
    let sc := scoreOf d histLen m s1.view (jit i)
    let s2 := chessUndo s1
    let pr := evalLoop ap d histLen jit ms (i + 1) s2
    (⟨m, sc⟩ :: pr.1, pr.2)

/-- `evaluateAllMoves` (lines 271-295): score every candidate on the working
copy, then stable-sort descending. -/
def evaluateAllMoves (ap : GameView → Move → GameView) (d : Difficulty) (histLen : ℕ)
    (jit : ℕ → ℚ) (moves : List Move) (s : EngineSt) : List ScoredMove × EngineSt :=
  let pr := evalLoop ap d histLen jit moves 0 s
  (sortDesc pr.1, pr.2)

/-- Candidate scoring with no state threading at all: every candidate is
scored directly against the pre-scoring view `v`.  This is the
specification-side reading of the apply-then-undo discipline ("no two
candidate evaluations may observe mutation leakage"). -/
def specScores (ap : GameView → Move → GameView) (d : Difficulty) (histLen : ℕ)
    (jit : ℕ → ℚ) (v : GameView) : List Move → ℕ → List ScoredMove
  | [], _ => []
  | m :: ms, i => ⟨m, scoreOf d histLen m (ap v m) (jit i)⟩ :: specScores ap d histLen jit v ms (i + 1)

/-- The inline ternary `difficulty === 'Easy' ? 5 : difficulty === 'Medium'
? 3 : 2` of lines 304-306. -/
def shortlistSize : Difficulty → ℕ
  | .Easy => 5
  | .Medium => 3
  | .Hard => 2

/-- `selectMove` (lines 302-308): truncate the (already sorted) list to the
tier shortlist and index it with `Math.floor(Math.random() * length)`.
`rand` models the `Math.random()` draw; the `undefined.move` dereference on
an empty list is modelled by `Option`. -/
def selectMove (d : Difficulty) (evaluated : List ScoredMove) (rand : ℚ) : Option Move :=
  let topMoves := evaluated.take (shortlistSize d)
  (topMoves.get? (Int.toNat (Int.floor (rand * (topMoves.length : ℚ))))).map (fun x => x.move)

/-- The engine part of `makeComputerMoveWithTimer` (lines 230-254): when the
legal-move list is empty nothing is evaluated and no move is produced (the
caller treats this as game over); otherwise evaluate and select. -/
def makeComputerMove (ap : GameView → Move → GameView) (d : Difficulty) (histLen : ℕ)
    (jit : ℕ → ℚ) (rand : ℚ) (moves : List Move) (s : EngineSt) : Option Move :=
  if 0 < moves.length then
    selectMove d (evaluateAllMoves ap d histLen jit moves s).1 rand
  else none

/-! ### FEN serialization (model of the external rules engine's `fen()`)

chess.js serializes a position as
`<placement> <turn> <castling> <en-passant> <halfmove> <fullmove>`.
Several component functions pattern-match on this string, so the writer is
modelled faithfully below. -/

/-- Castling-rights component of a position (`KQkq` subset). -/
structure CastlingRights where
  K : Bool
  Q : Bool
  k : Bool
  q : Bool
deriving DecidableEq, Repr

/-- A full position as the external rules engine holds it: the en-passant
target square is (file index 0-7, rank digit). -/
structure GamePos where
  board : Board
  turn : PColor
  castling : CastlingRights
  ep : Option (ℕ × ℕ)
  halfmove : ℕ
  fullmove : ℕ

/-- FEN letter of a piece: uppercase white, lowercase black. -/
def pieceChar (pc : Piece) : Char :=
  match pc.color, pc.type with
  | .w, .p => 'P'
  | .w, .n => 'N'
  | .w, .b => 'B'
  | .w, .r => 'R'
  | .w, .q => 'Q'
  | .w, .k => 'K'
  | .b, .p => 'p'
  | .b, .n => 'n'
  | .b, .b => 'b'
  | .b, .r => 'r'
  | .b, .q => 'q'
  | .b, .k => 'k'

/-- Decimal digit character (the run lengths and numeric FEN fields only
ever use 0-9; larger inputs fall back to `'0'`). -/
def digitCh (n : ℕ) : Char :=
  if n = 1 then '1' else if n = 2 then '2' else if n = 3 then '3'
  else if n = 4 then '4' else if n = 5 then '5' else if n = 6 then '6'
  else if n = 7 then '7' else if n = 8 then '8' else if n = 9 then '9' else '0'

/-- File letter a-h (out-of-range falls back to `'a'`). -/
def fileCh (n : ℕ) : Char :=
  if n = 1 then 'b' else if n = 2 then 'c' else if n = 3 then 'd'
  else if n = 4 then 'e' else if n = 5 then 'f' else if n = 6 then 'g'
  else if n = 7 then 'h' else 'a'

/-- One rank of the placement field: pieces interleaved with
run-length-encoded empty stretches; `k` is the pending empty-run length. -/
def rowFenAux : List (Option Piece) → ℕ → List Char
  | [], k => if k = 0 then [] else [digitCh k]
  | none :: rest, k => rowFenAux rest (k + 1)
  | some pc :: rest, k =>
    (if k = 0 then [] else [digitCh k]) ++ pieceChar pc :: rowFenAux rest 0

/-- Rank strings joined by `'/'`. -/
def joinSlash : List (List Char) → List Char
  | [] => []
  | [r] => r
  | r :: r2 :: rest => r ++ '/' :: joinSlash (r2 :: rest)

/-- The placement field: ranks 8..1 joined by `'/'`. -/
def boardFenChars (b : Board) : List Char :=
  joinSlash (b.map (fun r => rowFenAux r 0))

/-- Castling field: `KQkq` subset, or `-` when no right remains. -/
def castlingChars (c : CastlingRights) : List Char :=
  let s := (if c.K then ['K'] else []) ++ (if c.Q then ['Q'] else []) ++
           (if c.k then ['k'] else []) ++ (if c.q then ['q'] else [])
  if s = [] then ['-'] else s

/-- En-passant field: algebraic square or `-`. -/
def epChars : Option (ℕ × ℕ) → List Char
  | none => ['-']
  | some pr => [fileCh pr.1, digitCh pr.2]

/-- Side-to-move field. -/
def turnCh : PColor → Char
  | .w => 'w'
  | .b => 'b'

/-- Decimal digits of a natural number (most significant first); the first
argument is structural fuel, always called with enough of it. -/
def natCharsAux : ℕ → ℕ → List Char → List Char
  | 0, n, acc => digitCh n :: acc
  | fuel + 1, n, acc =>
    if n < 10 then digitCh n :: acc
    else natCharsAux fuel (n / 10) (digitCh (n % 10) :: acc)

/-- Decimal representation used for the halfmove/fullmove FEN fields. -/
def natChars (n : ℕ) : List Char :=
  natCharsAux n n []

/-- The FEN string of a position, as the external rules engine writes it. -/
def fenOf (pos : GamePos) : String :=
  String.mk (boardFenChars pos.board ++ [' '] ++ [turnCh pos.turn] ++ [' '] ++
    castlingChars pos.castling ++ [' '] ++ epChars pos.ep ++ [' '] ++
    natChars pos.halfmove ++ [' '] ++ natChars pos.fullmove)

/-- Pieces on the board satisfying a predicate (spec-side counter used to
state what `isInEndgame` was meant to test). -/
def countPieces (sel : Piece → Bool) (b : Board) : ℕ :=
  (b.map (fun r => r.countP (fun o =>
    match o with
    | some pc => sel pc
    | none => false))).sum

/-- Queens of both colors actually on the board. -/
def queensOn (b : Board) : ℕ :=
  countPieces (fun pc => pc.type == PieceType.q) b

/-- Rooks, knights and bishops of both colors actually on the board. -/
def rnbOn (b : Board) : ℕ :=
  countPieces (fun pc => pc.type == PieceType.r || pc.type == PieceType.n ||
    pc.type == PieceType.b) b

/-! ### Presentation-layer state and `makeAMove` -/

/-- The component state touched by `makeAMove` (lines 146-159): displayed
position, move history, selection highlights, and the clock state that
`handleMoveComplete` may update.  `turn` is the side to move of the
displayed position (`game.turn()`). -/
structure UISt where
  gameFen : String
  turn : PColor
  moveHistory : List String
  moveFrom : String
  possibleMoves : List String
  isTimerRunning : Bool
  whiteTime : ℕ
  blackTime : ℕ
  increment : ℕ
deriving DecidableEq, Repr

/-- A successful `gameCopy.move(move)` result in `makeAMove`: the new
position (with side to move flipped) and the SAN of the applied move.
`none` models both a thrown error and a null result for an illegal move. -/
structure MoveOutcome where
  newFen : String
  san : String
deriving DecidableEq, Repr

/-- `handleMoveComplete` (lines 206-221), evaluated against the
pre-move `turn` captured by the React closure. -/
def handleMoveComplete (oldTurn : PColor) (s : UISt) : UISt :=
  if !s.isTimerRunning then { s with isTimerRunning := true }
  else if 0 < s.increment then
    match oldTurn with
    | .w => { s with blackTime := s.blackTime + s.increment }
    | .b => { s with whiteTime := s.whiteTime + s.increment }
  else s

/-- `makeAMove` (lines 707-725): the rules-engine outcome is the oracle
answer for applying the requested move to the displayed position.  On
failure (`none`) no setter runs; on success the position, history and
highlights are updated and `handleMoveComplete` runs. -/
def makeAMove (outcome : Option MoveOutcome) (s : UISt) : Bool × UISt :=
  match outcome with
  | none => (false, s)
  | some r =>
    let s1 := { s with
      gameFen := r.newFen,
      turn := match s.turn with | .w => PColor.b | .b => PColor.w,
      moveHistory := s.moveHistory ++ [r.san],
      moveFrom := "",
      possibleMoves := [] }
    (true, handleMoveComplete s.turn s1)

/-! ### Concrete positions and moves used by witnesses and counterexamples -/

def emptyRow : List (Option Piece) :=
  [none, none, none, none, none, none, none, none]

def emptyBoard : Board :=
  [emptyRow, emptyRow, emptyRow, emptyRow, emptyRow, emptyRow, emptyRow, emptyRow]

def c3move : Move := ⟨"e2", "e4", PieceType.p, none, "e4"⟩

/-- A full pawn rank. -/
def pawnRank (c : PColor) : List (Option Piece) :=
  List.replicate 8 (some ⟨.p, c⟩)

/-- A back rank with the queen removed. -/
def nqRank (c : PColor) : List (Option Piece) :=
  [some ⟨.r, c⟩, some ⟨.n, c⟩, some ⟨.b, c⟩, none,
   some ⟨.k, c⟩, some ⟨.b, c⟩, some ⟨.n, c⟩, some ⟨.r, c⟩]

/-- Both sides keep rooks/knights/bishops, full castling rights, but no
queen remains on the board.
FEN: `rnb1kbnr/pppppppp/8/8/8/8/PPPPPPPP/RNB1KBNR w KQkq - 0 1`. -/
def noQueensPos : GamePos :=
  ⟨[nqRank .b, pawnRank .b, emptyRow, emptyRow, emptyRow, emptyRow,
    pawnRank .w, nqRank .w], .w, ⟨true, true, true, true⟩, none, 0, 1⟩

/-- Bare kings plus a single white rook (`4k3/8/8/8/8/8/8/4K2R w - - 0 1`). -/
def oneRookPos : GamePos :=
  ⟨[[none, none, none, none, some ⟨.k, .b⟩, none, none, none],
    emptyRow, emptyRow, emptyRow, emptyRow, emptyRow, emptyRow,
    [none, none, none, none, some ⟨.k, .w⟩, none, none, some ⟨.r, .w⟩]],
    .w, ⟨false, false, false, false⟩, none, 0, 1⟩

/-- A back rank keeping queen, rooks, knights and one bishop. -/
def tqRank (c : PColor) : List (Option Piece) :=
  [some ⟨.r, c⟩, some ⟨.n, c⟩, some ⟨.b, c⟩, some ⟨.q, c⟩,
   some ⟨.k, c⟩, none, some ⟨.n, c⟩, some ⟨.r, c⟩]

/-- Two queens and ten rooks/knights/bishops on the board. -/
def twoQueenPos : GamePos :=
  ⟨[tqRank .b, pawnRank .b, emptyRow, emptyRow, emptyRow, emptyRow,
    pawnRank .w, tqRank .w], .w, ⟨false, false, false, false⟩, none, 0, 1⟩

/-- Black has castled kingside: king g8, rook f8
(`r4rk1/pppppppp/8/8/8/8/PPPPPPPP/R5K1 w - - 2 5`). -/
def castledPos : GamePos :=
  ⟨[[some ⟨.r, .b⟩, none, none, none, none, some ⟨.r, .b⟩, some ⟨.k, .b⟩, none],
    pawnRank .b, emptyRow, emptyRow, emptyRow, emptyRow, pawnRank .w,
    [some ⟨.r, .w⟩, none, none, none, none, none, some ⟨.k, .w⟩, none]],
    .w, ⟨false, false, false, false⟩, none, 2, 5⟩

/-- The rules-engine view of `castledPos` (no reply moves needed). -/
def castledView : GameView :=
  ⟨castledPos.board, fenOf castledPos, false, false, false, []⟩

/-- A quiet knight move used as the Hard-tier candidate in the C1
evaluation. -/
def hardMove : Move := ⟨"g8", "f6", PieceType.n, none, "Nf6"⟩

/-- A post-move view with one reply move available (mobility 1).  The fen
field is chosen middlegame-classified (two `q`, seven `rnb` letters). -/
def hardView : GameView :=
  ⟨emptyBoard, "qqrrrnnbb", false, false, false, [⟨"a7", "a6", .p, none, "a6"⟩]⟩

/-- Black pawns doubled (and isolated) on the a-file, kings only otherwise.
FEN: `4k3/p7/p7/8/8/8/8/4K3 w - - 0 1`. -/
def doubledPawnPos : GamePos :=
  ⟨[[none, none, none, none, some ⟨.k, .b⟩, none, none, none],
    [some ⟨.p, .b⟩, none, none, none, none, none, none, none],
    [some ⟨.p, .b⟩, none, none, none, none, none, none, none],
    emptyRow, emptyRow, emptyRow, emptyRow,
    [none, none, none, none, some ⟨.k, .w⟩, none, none, none]],
    .w, ⟨false, false, false, false⟩, none, 0, 1⟩

/-- The rules-engine view of `doubledPawnPos`. -/
def doubledPawnView : GameView :=
  ⟨doubledPawnPos.board, fenOf doubledPawnPos, false, false, false, []⟩

/-- A black pawn on a5 with a WHITE pawn ahead of it on a3 (the black pawn
is blocked, not passed), plus kings. -/
def passedBugView : GameView :=
  ⟨[[none, none, none, none, none, none, none, some ⟨.k, .b⟩],
    emptyRow, emptyRow,
    [some ⟨.p, .b⟩, none, none, none, none, none, none, none],
    emptyRow,
    [some ⟨.p, .w⟩, none, none, none, none, none, none, none],
    emptyRow,
    [none, none, none, none, none, none, none, some ⟨.k, .w⟩]],
    "", false, false, false, []⟩

/-- A pawn capturing a queen (Beginner-tier counterexample input). -/
def c8move : Move := ⟨"d4", "e5", PieceType.p, some PieceType.q, "dxe5"⟩

/-- A quiet post-move view: no check, no mate, no draw, no replies. -/
def c8view : GameView := ⟨emptyBoard, "", false, false, false, []⟩

/-! ## Lemmas and claim theorems -/

theorem chessUndo_chessMove (ap : GameView → Move → GameView) (m : Move) (s : EngineSt) :
    chessUndo (chessMove ap m s) = s := rfl

theorem evalLoop_eq_specScores (ap : GameView → Move → GameView) (d : Difficulty)
    (histLen : ℕ) (jit : ℕ → ℚ) (moves : List Move) :
    ∀ (i : ℕ) (s : EngineSt),
      evalLoop ap d histLen jit moves i s = (specScores ap d histLen jit s.view moves i, s) := by
  induction moves with
  | nil => intro i s; rfl
  | cons m ms ih =>
    intro i s
    simp only [evalLoop, specScores, chessMove, chessUndo, ih]

theorem specScores_length (ap : GameView → Move → GameView) (d : Difficulty)
    (histLen : ℕ) (jit : ℕ → ℚ) (v : GameView) (moves : List Move) :
    ∀ i : ℕ, (specScores ap d histLen jit v moves i).length = moves.length := by
  induction moves with
  | nil => intro i; rfl
  | cons m ms ih => intro i; simp [specScores, ih]

theorem insertDesc_perm (x : ScoredMove) (l : List ScoredMove) :
    (insertDesc x l).Perm (x :: l) := by
  induction l with
  | nil => exact List.Perm.refl _
  | cons y ys ih =>
    by_cases h : y.score ≤ x.score
    · simp [insertDesc, h]
    · simp only [insertDesc, h, if_false]
      exact ((ih.cons y).trans (List.Perm.swap x y ys))

theorem sortDesc_perm (l : List ScoredMove) : (sortDesc l).Perm l := by
  induction l with
  | nil => exact List.Perm.refl _
  | cons x xs ih =>
    exact (insertDesc_perm x (sortDesc xs)).trans (ih.cons x)

theorem sortDesc_cons (x : ScoredMove) (xs : List ScoredMove) :
    sortDesc (x :: xs) = insertDesc x (sortDesc xs) := rfl

theorem insertDesc_pairwise (x : ScoredMove) (l : List ScoredMove)
    (h : List.Pairwise (fun a b => b.score ≤ a.score) l) :
    List.Pairwise (fun a b => b.score ≤ a.score) (insertDesc x l) := by
  induction l with
  | nil => simp [insertDesc]
  | cons y ys ih =>
    rcases List.pairwise_cons.mp h with ⟨hy, hys⟩
    by_cases hxy : y.score ≤ x.score
    · simp only [insertDesc, hxy, if_true]
      refine List.pairwise_cons.mpr ⟨?_, h⟩
      intro z hz
      rcases List.mem_cons.mp hz with hz | hz
      · subst hz; exact hxy
      · exact le_trans (hy z hz) hxy
    · simp only [insertDesc, hxy, if_false]
      refine List.pairwise_cons.mpr ⟨?_, ih hys⟩
      intro z hz
      have hz2 := (insertDesc_perm x ys).mem_iff.mp hz
      rcases List.mem_cons.mp hz2 with hz3 | hz3
      · subst hz3; exact le_of_not_le hxy
      · exact hy z hz3

theorem sortDesc_pairwise (l : List ScoredMove) :
    List.Pairwise (fun a b => b.score ≤ a.score) (sortDesc l) := by
  induction l with
  | nil => simp [sortDesc]
  | cons x xs ih => exact insertDesc_pairwise x (sortDesc xs) ih

theorem insertDesc_filter_eq (x : ScoredMove) (l : List ScoredMove) (s : ℚ) :
    (insertDesc x l).filter (fun y => y.score == s) =
      if x.score = s then x :: l.filter (fun y => y.score == s)
      else l.filter (fun y => y.score == s) := by
  induction l with
  | nil => by_cases h : x.score = s <;> simp [insertDesc, List.filter_cons, beq_iff_eq, h]
  | cons y ys ih =>
    by_cases hxy : y.score ≤ x.score
    · simp only [insertDesc, hxy, if_true]
      rw [List.filter_cons]
      by_cases hx : x.score = s <;> simp [beq_iff_eq, hx]
    · simp only [insertDesc, hxy, if_false]
      rw [List.filter_cons, List.filter_cons, ih]
      by_cases hyy : y.score = s
      · have hx : ¬ x.score = s := by
          intro hx
          exact hxy (le_of_eq (hyy.trans hx.symm))
        simp [beq_iff_eq, hyy, hx]
      · by_cases hx : x.score = s <;> simp [beq_iff_eq, hyy, hx]

theorem sortDesc_filter_eq (l : List ScoredMove) (s : ℚ) :
    (sortDesc l).filter (fun y => y.score == s) = l.filter (fun y => y.score == s) := by
  induction l with
  | nil => rfl
  | cons x xs ih =>
    rw [sortDesc_cons, insertDesc_filter_eq, List.filter_cons]
    by_cases hx : x.score = s
    · simp [beq_iff_eq, hx, ih]
    · simp [beq_iff_eq, hx, ih]

/-- Shortlist index produced from a `Math.random()` draw is in range. -/
theorem floor_index_lt (rand : ℚ) (n : ℕ) (h0 : 0 ≤ rand) (h1 : rand < 1) (hn : 0 < n) :
    Int.toNat (Int.floor (rand * (n : ℚ))) < n := by
  have hnq : (0 : ℚ) < (n : ℚ) := by exact_mod_cast hn
  have hlt : rand * (n : ℚ) < (n : ℚ) := by
    calc rand * (n : ℚ) < 1 * (n : ℚ) := by exact mul_lt_mul_of_pos_right h1 hnq
    _ = (n : ℚ) := one_mul _
  have hfl : Int.floor (rand * (n : ℚ)) < (n : ℤ) := by
    rw [Int.floor_lt]
    exact_mod_cast hlt
  have hge : (0 : ℤ) ≤ Int.floor (rand * (n : ℚ)) :=
    Int.floor_nonneg.mpr (mul_nonneg h0 (le_of_lt hnq))
  omega

/-- C10: when the rules engine rejects a move, `makeAMove` returns `false`
and leaves the displayed position, move history, selection highlights and
clock state untouched; when the move is applied it returns `true`.  So the
return value is `true` exactly when the move was applied. -/
theorem claim_C10 (s : UISt) (r : MoveOutcome) :
    makeAMove none s = (false, s) ∧ (makeAMove (some r) s).1 = true := by
  constructor <;> rfl

/-- For a nonempty evaluated list, `selectMove` always produces a move, and
that move belongs to one of the evaluated entries. -/
theorem selectMove_isSome_of_ne_nil (d : Difficulty) (l : List ScoredMove) (rand : ℚ)
    (h0 : 0 ≤ rand) (h1 : rand < 1) (hne : l ≠ []) :
    ∃ m, selectMove d l rand = some m ∧ ∃ x ∈ l, x.move = m := by
  have hk : 0 < shortlistSize d := by
    cases d <;> norm_num [shortlistSize]
  have hl : 0 < l.length := List.length_pos.mpr hne
  have htop : 0 < (l.take (shortlistSize d)).length := by
    rw [List.length_take]
    exact lt_min_iff.mpr ⟨hk, hl⟩
  have hidx := floor_index_lt rand _ h0 h1 htop
  refine ⟨((l.take (shortlistSize d)).get ⟨_, hidx⟩).move, ?_, ?_⟩
  · simp only [selectMove]
    rw [List.get?_eq_get hidx]
    rfl
  · refine ⟨_, ?_, rfl⟩
    exact List.take_subset _ _ (List.get_mem _ _ _)

/-- `selectMove` on an empty evaluated list dereferences `undefined` and
produces no move. -/
theorem selectMove_nil (d : Difficulty) (rand : ℚ) :
    selectMove d [] rand = none := by
  cases d <;> rfl

/-- C2: scoring a candidate list leaves the working copy exactly as it was
before the pass began, and every candidate is scored against the view
obtained by applying it to the ORIGINAL position — no mutation leaks from
one candidate evaluation into the next (`specScores` performs no state
threading at all). -/
theorem claim_C2 (ap : GameView → Move → GameView) (d : Difficulty) (histLen : ℕ)
    (jit : ℕ → ℚ) (moves : List Move) (s : EngineSt) :
    (evaluateAllMoves ap d histLen jit moves s).2 = s ∧
    (evaluateAllMoves ap d histLen jit moves s).1 =
      sortDesc (specScores ap d histLen jit s.view moves 0) := by
  unfold evaluateAllMoves
  rw [evalLoop_eq_specScores]
  exact ⟨rfl, rfl⟩

/-- C3: the selector pipeline stable-sorts the scored candidates descending
by score (a permutation, sorted, preserving the original relative order of
equal scores), truncates to the tier shortlist (5 / 3 / 2, clamped to the
available length), and the sampled element's move is a member of the
candidate list that was passed in. -/
theorem claim_C3 (d : Difficulty) (l : List ScoredMove) (rand : ℚ)
    (h0 : 0 ≤ rand) (h1 : rand < 1) (hne : l ≠ []) :
    (sortDesc l).Perm l ∧
    List.Pairwise (fun a b => b.score ≤ a.score) (sortDesc l) ∧
    (∀ s : ℚ, (sortDesc l).filter (fun y => y.score == s) =
      l.filter (fun y => y.score == s)) ∧
    ((sortDesc l).take (shortlistSize d)).length = min (shortlistSize d) l.length ∧
    ∃ m, selectMove d (sortDesc l) rand = some m ∧ m ∈ l.map (fun x => x.move) := by
  have hperm := sortDesc_perm l
  refine ⟨hperm, sortDesc_pairwise l, fun s => sortDesc_filter_eq l s, ?_, ?_⟩
  · rw [List.length_take, hperm.length_eq]
  · have hsne : sortDesc l ≠ [] := by
      intro h
      apply hne
      have hlen := hperm.length_eq
      rw [h] at hlen
      exact List.eq_nil_of_length_eq_zero hlen.symm
    rcases selectMove_isSome_of_ne_nil d (sortDesc l) rand h0 h1 hsne with ⟨m, hm, x, hx, hxm⟩
    exact ⟨m, hm, List.mem_map.mpr ⟨x, hperm.mem_iff.mp hx, hxm⟩⟩


/-- Witness for C3 at a concrete singleton candidate list. -/
theorem claim_C3_witness :
    ∃ m, selectMove Difficulty.Easy (sortDesc [⟨c3move, 1⟩]) (1 / 2) = some m ∧
      m ∈ [ScoredMove.mk c3move 1].map (fun x => x.move) :=
  (claim_C3 Difficulty.Easy [⟨c3move, 1⟩] (1 / 2) (by norm_num) (by norm_num)
    (by intro h; exact List.noConfusion h)).2.2.2.2

/-- C4: the selector produces no move exactly when its candidate list is
empty, and the computer-move controller produces no move exactly when the
legal-move list is empty (the game-over case); for any nonempty legal-move
list a move is produced. -/
theorem claim_C4 (ap : GameView → Move → GameView) (d : Difficulty) (histLen : ℕ)
    (jit : ℕ → ℚ) (rand : ℚ) (moves : List Move) (s : EngineSt)
    (h0 : 0 ≤ rand) (h1 : rand < 1) :
    (∀ l : List ScoredMove, selectMove d l rand = none ↔ l = []) ∧
    (makeComputerMove ap d histLen jit rand moves s = none ↔ moves = []) := by
  have hsel : ∀ l : List ScoredMove, selectMove d l rand = none ↔ l = [] := by
    intro l
    constructor
    · intro h
      by_contra hne
      rcases selectMove_isSome_of_ne_nil d l rand h0 h1 hne with ⟨m, hm, _⟩
      rw [h] at hm
      exact Option.noConfusion hm
    · intro h
      rw [h]
      exact selectMove_nil d rand
  refine ⟨hsel, ?_⟩
  by_cases hm : moves = []
  · subst hm
    simp [makeComputerMove]
  · have hlen : 0 < moves.length := List.length_pos.mpr hm
    unfold makeComputerMove
    rw [if_pos hlen, hsel]
    have h2 : (evaluateAllMoves ap d histLen jit moves s).1 =
        sortDesc (specScores ap d histLen jit s.view moves 0) := by
      unfold evaluateAllMoves
      rw [evalLoop_eq_specScores]
    rw [h2]
    constructor
    · intro h
      have := congrArg List.length h
      rw [(sortDesc_perm _).length_eq, specScores_length] at this
      simp only [List.length_nil] at this
      omega
    · intro h
      exact absurd h hm

/-- Witness for C4 at concrete inputs (constant oracle, empty move list on
one side checked through the theorem's empty-iff direction). -/
theorem claim_C4_witness :
    makeComputerMove (fun v _ => v)
      Difficulty.Hard 0 (fun _ => 0) (1 / 2) []
      ⟨⟨[], "", false, false, false, []⟩, []⟩ = none :=
  (claim_C4 (fun v _ => v) Difficulty.Hard 0 (fun _ => 0) (1 / 2) []
    ⟨⟨[], "", false, false, false, []⟩, []⟩ (by norm_num) (by norm_num)).2.mpr rfl

/-! ### Character counting over serialized FEN strings -/

theorem countP_rowFenAux (sel : Char → Bool) (hd : ∀ n, sel (digitCh n) = false) :
    ∀ (cells : List (Option Piece)) (k : ℕ),
      (rowFenAux cells k).countP sel =
        cells.countP (fun o =>
          match o with
          | some pc => sel (pieceChar pc)
          | none => false) := by
  intro cells
  induction cells with
  | nil =>
    intro k
    by_cases hk : k = 0 <;> simp [rowFenAux, hk, List.countP_cons, hd]
  | cons o rest ih =>
    intro k
    match o with
    | none =>
      rw [rowFenAux, ih, List.countP_cons]
      simp
    | some pc =>
      rw [rowFenAux, List.countP_append, List.countP_cons, List.countP_cons, ih]
      by_cases hk : k = 0 <;> simp [hk, List.countP_cons, hd]

theorem countP_joinSlash (sel : Char → Bool) (hs : sel '/' = false) :
    ∀ rows : List (List Char),
      (joinSlash rows).countP sel = (rows.map (fun r => r.countP sel)).sum := by
  intro rows
  induction rows with
  | nil => rfl
  | cons r rest ih =>
    match rest with
    | [] => simp [joinSlash]
    | r2 :: t =>
      rw [joinSlash, List.countP_append, List.countP_cons, ih]
      simp [hs]

theorem countP_natCharsAux (sel : Char → Bool) (hd : ∀ n, sel (digitCh n) = false) :
    ∀ (fuel n : ℕ) (acc : List Char),
      (natCharsAux fuel n acc).countP sel = acc.countP sel := by
  intro fuel
  induction fuel with
  | zero => intro n acc; simp [natCharsAux, List.countP_cons, hd]
  | succ fuel ih =>
    intro n acc
    rw [natCharsAux]
    split
    · simp [List.countP_cons, hd]
    · rw [ih]
      simp [List.countP_cons, hd]

/-- Character count over a whole serialized FEN, split into its fields, for
any selector that rejects digits, `'/'` and `' '`. -/
theorem countP_fenOf (sel : Char → Bool) (hd : ∀ n, sel (digitCh n) = false)
    (hs : sel '/' = false) (hsp : sel ' ' = false) (pos : GamePos) :
    ((fenOf pos).data).countP sel =
      countPieces (fun pc => sel (pieceChar pc)) pos.board
      + (if sel (turnCh pos.turn) then 1 else 0)
      + (castlingChars pos.castling).countP sel
      + (epChars pos.ep).countP sel := by
  show (boardFenChars pos.board ++ [' '] ++ [turnCh pos.turn] ++ [' '] ++
    castlingChars pos.castling ++ [' '] ++ epChars pos.ep ++ [' '] ++
    natChars pos.halfmove ++ [' '] ++ natChars pos.fullmove).countP sel = _
  simp only [List.countP_append]
  rw [boardFenChars, countP_joinSlash sel hs]
  have hb : ((pos.board.map (fun r => rowFenAux r 0)).map (fun r => r.countP sel)).sum =
      countPieces (fun pc => sel (pieceChar pc)) pos.board := by
    rw [List.map_map]
    unfold countPieces
    simp only [Function.comp]
    congr 1
    apply List.map_congr_left
    intro r _
    exact countP_rowFenAux sel hd r 0
  rw [hb]
  have hn1 : (natChars pos.halfmove).countP sel = 0 := by
    rw [natChars, countP_natCharsAux sel hd]
    rfl
  have hn2 : (natChars pos.fullmove).countP sel = 0 := by
    rw [natChars, countP_natCharsAux sel hd]
    rfl

  simp [hn1, hn2, List.countP_cons, hsp]

theorem qsel_digitCh (n : ℕ) : ((digitCh n == 'q') || (digitCh n == 'Q')) = false := by
  unfold digitCh
  split_ifs <;> rfl

theorem rnbsel_digitCh (n : ℕ) :
    ((digitCh n == 'r') || (digitCh n == 'n') || (digitCh n == 'b') ||
     (digitCh n == 'R') || (digitCh n == 'N') || (digitCh n == 'B')) = false := by
  unfold digitCh
  split_ifs <;> rfl

theorem qsel_fileCh (n : ℕ) : ((fileCh n == 'q') || (fileCh n == 'Q')) = false := by
  unfold fileCh
  split_ifs <;> rfl

theorem rnbsel_fileCh (n : ℕ) :
    ((fileCh n == 'r') || (fileCh n == 'n') || (fileCh n == 'b') ||
     (fileCh n == 'R') || (fileCh n == 'N') || (fileCh n == 'B')) = decide (n = 1) := by
  unfold fileCh
  split_ifs with h1 h2 h3 h4 h5 h6 h7 <;> simp_all

theorem qsel_pieceChar (pc : Piece) :
    ((pieceChar pc == 'q') || (pieceChar pc == 'Q')) = (pc.type == PieceType.q) := by
  obtain ⟨t, c⟩ := pc
  cases t <;> cases c <;> rfl

theorem rnbsel_pieceChar (pc : Piece) :
    ((pieceChar pc == 'r') || (pieceChar pc == 'n') || (pieceChar pc == 'b') ||
     (pieceChar pc == 'R') || (pieceChar pc == 'N') || (pieceChar pc == 'B')) =
      (pc.type == PieceType.r || pc.type == PieceType.n || pc.type == PieceType.b) := by
  obtain ⟨t, c⟩ := pc
  cases t <;> cases c <;> rfl

theorem countPieces_congr (s1 s2 : Piece → Bool) (h : ∀ pc, s1 pc = s2 pc) (b : Board) :
    countPieces s1 b = countPieces s2 b := by
  unfold countPieces
  congr 1
  apply List.map_congr_left
  intro r _
  apply List.countP_congr
  intro o _
  rcases o with _ | pc
  · simp
  · simp [h pc]

theorem qcount_castling (c : CastlingRights) :
    (castlingChars c).countP (fun ch => ch == 'q' || ch == 'Q') =
      (if c.Q then 1 else 0) + (if c.q then 1 else 0) := by
  obtain ⟨hK, hQ, hk, hq⟩ := c
  cases hK <;> cases hQ <;> cases hk <;> cases hq <;> rfl

theorem rnbcount_castling (c : CastlingRights) :
    (castlingChars c).countP (fun ch => ch == 'r' || ch == 'n' || ch == 'b' ||
      ch == 'R' || ch == 'N' || ch == 'B') = 0 := by
  obtain ⟨hK, hQ, hk, hq⟩ := c
  cases hK <;> cases hQ <;> cases hk <;> cases hq <;> rfl

theorem qcount_ep (e : Option (ℕ × ℕ)) :
    (epChars e).countP (fun ch => ch == 'q' || ch == 'Q') = 0 := by
  match e with
  | none => rfl
  | some pr =>
    show ([fileCh pr.1, digitCh pr.2].countP _) = 0
    simp [List.countP_cons, qsel_fileCh, qsel_digitCh]

theorem rnbcount_ep (e : Option (ℕ × ℕ)) :
    (epChars e).countP (fun ch => ch == 'r' || ch == 'n' || ch == 'b' ||
      ch == 'R' || ch == 'N' || ch == 'B') =
      (match e with
       | some pr => if pr.1 = 1 then 1 else 0
       | none => 0) := by
  match e with
  | none => rfl
  | some pr =>
    show ([fileCh pr.1, digitCh pr.2].countP _) = _
    simp only [List.countP_cons, List.countP_nil, rnbsel_fileCh, rnbsel_digitCh]
    by_cases h : pr.1 = 1 <;> simp [h]

/-- The q/Q character count of a serialized FEN: queens on the board plus
the queen-side castling-right letters. -/
theorem qcount_fenOf (pos : GamePos) :
    ((fenOf pos).data).countP (fun c => c == 'q' || c == 'Q') =
      queensOn pos.board + (if pos.castling.Q then 1 else 0) +
      (if pos.castling.q then 1 else 0) := by
  rw [countP_fenOf _ qsel_digitCh rfl rfl]
  rw [countPieces_congr _ _ qsel_pieceChar, qcount_castling, qcount_ep]
  have ht : ((turnCh pos.turn == 'q') || (turnCh pos.turn == 'Q')) = false := by
    cases pos.turn <;> rfl
  rw [queensOn, ht]
  simp
  omega

/-- The r/n/b character count of a serialized FEN: rooks, knights and
bishops on the board, plus 1 when Black is to move (the side-to-move letter
`b`), plus 1 when the en-passant square is on the b-file. -/
theorem rnbcount_fenOf (pos : GamePos) :
    ((fenOf pos).data).countP (fun c => c == 'r' || c == 'n' || c == 'b' ||
      c == 'R' || c == 'N' || c == 'B') =
      rnbOn pos.board + (if pos.turn = PColor.b then 1 else 0) +
      (match pos.ep with
       | some pr => if pr.1 = 1 then 1 else 0
       | none => 0) := by
  rw [countP_fenOf _ rnbsel_digitCh rfl rfl]
  rw [countPieces_congr _ _ rnbsel_pieceChar, rnbcount_castling, rnbcount_ep]
  have ht : ((turnCh pos.turn == 'r') || (turnCh pos.turn == 'n') ||
      (turnCh pos.turn == 'b') || (turnCh pos.turn == 'R') ||
      (turnCh pos.turn == 'N') || (turnCh pos.turn == 'B')) =
      decide (pos.turn = PColor.b) := by
    cases pos.turn <;> rfl
  rw [rnbOn, ht]
  by_cases h : pos.turn = PColor.b <;> simp [h]

/-- C5 (amended): over serialized positions, `isInEndgame` declares endgame
exactly when (queens on the board PLUS queen-side castling-right letters) is
zero, or (rooks+knights+bishops on the board PLUS the side-to-move letter
when Black is to move PLUS the en-passant file letter when it is the
b-file) is at most 6 — the counts run over the whole FEN string, not the
piece placement only.  The two examples of the claim hold: bare kings plus
one rook is endgame, two queens with ten rooks/knights/bishops is not. -/
theorem claim_C5 :
    (∀ pos : GamePos,
      isInEndgame (fenOf pos) =
        ((queensOn pos.board + (if pos.castling.Q then 1 else 0) +
            (if pos.castling.q then 1 else 0) == 0) ||
          decide (rnbOn pos.board + (if pos.turn = PColor.b then 1 else 0) +
            (match pos.ep with
             | some pr => if pr.1 = 1 then 1 else 0
             | none => 0) ≤ 6))) ∧
    queensOn oneRookPos.board = 0 ∧ rnbOn oneRookPos.board = 1 ∧
    isInEndgame (fenOf oneRookPos) = true ∧
    queensOn twoQueenPos.board = 2 ∧ rnbOn twoQueenPos.board = 10 ∧
    isInEndgame (fenOf twoQueenPos) = false := by
  refine ⟨?_, by decide, by decide, by decide, by decide, by decide, by decide⟩
  intro pos
  show ((fenOf pos).data.countP (fun c => c == 'q' || c == 'Q') == 0 ||
    decide ((fenOf pos).data.countP (fun c => c == 'r' || c == 'n' || c == 'b' ||
      c == 'R' || c == 'N' || c == 'B') ≤ 6)) = _
  rw [qcount_fenOf, rnbcount_fenOf]

/-- C5 counterexample: `noQueensPos` has NO queens on the board, yet the
code classifies it as NOT endgame, because the castling-rights letters `Q`
and `q` in the FEN are counted as queens and the 12 rook/knight/bishop
letters exceed 6.  The claim as stated (endgame iff no queens remain or
rnb-count at most 6) therefore fails. -/
theorem claim_C5_counterexample :
    queensOn noQueensPos.board = 0 ∧ isInEndgame (fenOf noQueensPos) = false := by
  constructor <;> decide

/-! ### No FEN string contains the castling-test pattern characters -/

theorem pieceChar_ne_dot (pc : Piece) : pieceChar pc ≠ '.' := by
  obtain ⟨t, c⟩ := pc
  cases t <;> cases c <;> decide

theorem digitCh_ne_dot (n : ℕ) : digitCh n ≠ '.' := by
  unfold digitCh
  split_ifs <;> decide

theorem fileCh_ne_dot (n : ℕ) : fileCh n ≠ '.' := by
  unfold fileCh
  split_ifs <;> decide

theorem rowFenAux_ne_dot :
    ∀ (cells : List (Option Piece)) (k : ℕ) (c : Char),
      c ∈ rowFenAux cells k → c ≠ '.' := by
  intro cells
  induction cells with
  | nil =>
    intro k c hc
    by_cases hk : k = 0
    · simp [rowFenAux, hk] at hc
    · rw [rowFenAux] at hc
      rw [if_neg hk] at hc
      rcases List.mem_singleton.mp hc with rfl
      exact digitCh_ne_dot k
  | cons o rest ih =>
    intro k c hc
    match o with
    | none => exact ih (k + 1) c hc
    | some pc =>
      rw [rowFenAux, List.mem_append] at hc
      rcases hc with hc | hc
      · by_cases hk : k = 0
        · rw [if_pos hk] at hc
          simp at hc
        · rw [if_neg hk] at hc
          rcases List.mem_singleton.mp hc with rfl
          exact digitCh_ne_dot k
      · rcases List.mem_cons.mp hc with rfl | hc
        · exact pieceChar_ne_dot pc
        · exact ih 0 c hc

theorem joinSlash_ne_dot :
    ∀ (rows : List (List Char)) (c : Char),
      (∀ r ∈ rows, ∀ x ∈ r, x ≠ '.') → c ∈ joinSlash rows → c ≠ '.' := by
  intro rows
  induction rows with
  | nil => intro c _ hc; simp [joinSlash] at hc
  | cons r rest ih =>
    intro c hall hc
    match rest with
    | [] =>
      exact hall r (List.mem_cons_self r []) c hc
    | r2 :: t =>
      rw [joinSlash, List.mem_append] at hc
      rcases hc with hc | hc
      · exact hall r (List.mem_cons_self _ _) c hc
      · rcases List.mem_cons.mp hc with rfl | hc
        · decide
        · exact ih c (fun rr hrr => hall rr (List.mem_cons_of_mem r hrr)) hc

theorem castlingChars_ne_dot (cr : CastlingRights) (c : Char)
    (hc : c ∈ castlingChars cr) : c ≠ '.' := by
  intro h
  subst h
  obtain ⟨hK, hQ, hk2, hq2⟩ := cr
  cases hK <;> cases hQ <;> cases hk2 <;> cases hq2 <;> exact absurd hc (by decide)

theorem epChars_ne_dot (e : Option (ℕ × ℕ)) (c : Char)
    (hc : c ∈ epChars e) : c ≠ '.' := by
  match e with
  | none =>
    rcases List.mem_singleton.mp hc with rfl
    decide
  | some pr =>
    rcases List.mem_cons.mp hc with rfl | hc
    · exact fileCh_ne_dot pr.1
    · rcases List.mem_singleton.mp hc with rfl
      exact digitCh_ne_dot pr.2

theorem natCharsAux_ne_dot :
    ∀ (fuel n : ℕ) (acc : List Char) (c : Char),
      (∀ x ∈ acc, x ≠ '.') → c ∈ natCharsAux fuel n acc → c ≠ '.' := by
  intro fuel
  induction fuel with
  | zero =>
    intro n acc c hacc hc
    rcases List.mem_cons.mp hc with rfl | hc
    · exact digitCh_ne_dot n
    · exact hacc c hc
  | succ fuel ih =>
    intro n acc c hacc hc
    rw [natCharsAux] at hc
    split at hc
    · rcases List.mem_cons.mp hc with rfl | hc
      · exact digitCh_ne_dot n
      · exact hacc c hc
    · refine ih (n / 10) _ c ?_ hc
      intro x hx
      rcases List.mem_cons.mp hx with rfl | hx
      · exact digitCh_ne_dot (n % 10)
      · exact hacc x hx

/-- No character of a serialized FEN is `'.'`; in particular the literal
patterns `'k.*?r'` and `'r.*?k'` can never occur as substrings. -/
theorem fenOf_ne_dot (pos : GamePos) (c : Char) (hc : c ∈ (fenOf pos).data) :
    c ≠ '.' := by
  have hc2 : c ∈ boardFenChars pos.board ++ [' '] ++ [turnCh pos.turn] ++ [' '] ++
      castlingChars pos.castling ++ [' '] ++ epChars pos.ep ++ [' '] ++
      natChars pos.halfmove ++ [' '] ++ natChars pos.fullmove := hc
  simp only [List.mem_append] at hc2
  rcases hc2 with ((((((((((hc2 | hc2) | hc2) | hc2) | hc2) | hc2) | hc2) | hc2) | hc2) | hc2) | hc2)
  · refine joinSlash_ne_dot _ c ?_ hc2
    intro r hr x hx
    rcases List.mem_map.mp hr with ⟨row, _, rfl⟩
    exact rowFenAux_ne_dot row 0 x hx
  · rcases List.mem_singleton.mp hc2 with rfl; decide
  · rcases List.mem_singleton.mp hc2 with rfl
    cases pos.turn <;> decide
  · rcases List.mem_singleton.mp hc2 with rfl; decide
  · exact castlingChars_ne_dot pos.castling c hc2
  · rcases List.mem_singleton.mp hc2 with rfl; decide
  · exact epChars_ne_dot pos.ep c hc2
  · rcases List.mem_singleton.mp hc2 with rfl; decide
  · exact natCharsAux_ne_dot pos.halfmove pos.halfmove [] c (by simp) hc2
  · rcases List.mem_singleton.mp hc2 with rfl; decide
  · exact natCharsAux_ne_dot pos.fullmove pos.fullmove [] c (by simp) hc2

/-- C6: for every position the rules engine can serialize, the +60 castling
reward of `evaluateKingSafety` NEVER fires — the `includes('k.*?r')` tests
look for literal regex text that no FEN contains — so outside the endgame
the term is exactly minus 10 times the near-king move count, and in the
endgame it is zero.  The claim's castling-evidence reward does not exist at
runtime. -/
theorem claim_C6 (pos : GamePos) (g : GameView) (e : Bool)
    (hf : g.fen = fenOf pos) :
    evaluateKingSafety g e = if e then 0 else -10 * (countAttacksNearKing g : ℤ) := by
  have hpat : ∀ pat : String, '.' ∈ pat.data → strIncludes g.fen pat = false := by
    intro pat hdot
    rw [hf]
    unfold strIncludes
    simp only [decide_eq_false_iff_not]
    intro hinf
    exact fenOf_ne_dot pos '.' (hinf.subset hdot) rfl
  cases e
  · rw [evaluateKingSafety]
    rw [if_neg (by decide)]
    rw [hpat "k.*?r" (by decide), hpat "r.*?k" (by decide)]
    simp
  · rfl

/-- Witness for C6: in the concrete castled position the king-safety term
carries no castling reward. -/
theorem claim_C6_witness :
    evaluateKingSafety castledView false =
      -10 * (countAttacksNearKing castledView : ℤ) := by
  have h := claim_C6 castledPos castledView false rfl
  simpa using h

/-- C1 (code-bug evaluation): at a concrete Hard-tier input the runtime
score is `evaluateBasicPosition + evaluateAdvancedPosition(g)` — the SECOND
declaration, a bare piece-square scan with the endgame flag left undefined —
and NOT the full composition of the first declaration
(`evaluateAdvancedPositionOverridden`), which the claim describes: the two
differ already through the mobility term. -/
theorem claim_C1 :
    scoreOf Difficulty.Hard 20 hardMove hardView 0 = 0 ∧
    evaluateBasicPosition hardMove hardView +
      evaluateAdvancedPositionOverridden hardView 20 + 0 * 5 = 5 ∧
    (0 : ℚ) ≠ 5 := by
  have hb : evaluateBasicPosition hardMove hardView = 0 := by
    norm_num [evaluateBasicPosition, hardMove, hardView]
  have hlive : evaluateAdvancedPosition hardView false = 0 := by decide
  have hendg : isInEndgame hardView.fen = false := by decide
  have hpos : evaluatePosition hardView = 0 := by decide
  have hks : evaluateKingSafety hardView false = 0 := by decide
  have hpawn : evaluateAdvancedPawnStructure hardView = 0 := by decide
  have hcc : evaluateCenterControl hardView = 0 := by decide
  have hth : evaluateThreats hardView = 0 := by decide
  have hlen : hardView.moves.length = 1 := rfl
  refine ⟨?_, ?_, by norm_num⟩
  · show evaluateBasicPosition hardMove hardView +
      ((evaluateAdvancedPosition hardView false : ℤ) : ℚ) + 0 * 5 = 0
    rw [hb, hlive]
    norm_num
  · rw [evaluateAdvancedPositionOverridden]
    simp only [hendg, if_false, Bool.false_eq_true]
    rw [hb, hpos, hks, hpawn, hcc, hth, hlen]
    norm_num

/-- C7 (code-bug evaluation): `doubledPawnPos` holds two black pawns on the
a-file (doubled) and none on the b-file (isolated), yet the coarse
`evaluatePawnStructure` returns 0 — its regex-counting and literal
`includes` tests never recognize either structure; and in `passedBugView`
the black a5 pawn has a white pawn AHEAD of it on a3, yet
`evaluateAdvancedPawnStructure` still pays the +50 passed-pawn bonus
(total 25 = +50 passed - 25 isolated), because line 904 looks at rows
BEFORE the pawn and line 905 ignores the blocking pawn's color. -/
theorem claim_C7 :
    blackPawnsInFile doubledPawnPos.board 0 = 2 ∧
    blackPawnsInFile doubledPawnPos.board 1 = 0 ∧
    evaluatePawnStructure doubledPawnView = 0 ∧
    cellAt passedBugView.board 3 0 = some ⟨PieceType.p, PColor.b⟩ ∧
    cellAt passedBugView.board 5 0 = some ⟨PieceType.p, PColor.w⟩ ∧
    evaluateAdvancedPawnStructure passedBugView = 25 := by
  refine ⟨by decide, by decide, by decide, by decide, by decide, by decide⟩

/-- Every element of a `specScores` result is one of the input moves scored
by `scoreOf` against the oracle view for that move. -/
theorem mem_specScores (ap : GameView → Move → GameView) (d : Difficulty)
    (histLen : ℕ) (jit : ℕ → ℚ) (v : GameView) :
    ∀ (moves : List Move) (i : ℕ) (sm : ScoredMove),
      sm ∈ specScores ap d histLen jit v moves i →
      ∃ j m, moves.get? j = some m ∧
        sm = ⟨m, scoreOf d histLen m (ap v m) (jit (i + j))⟩ := by
  intro moves
  induction moves with
  | nil => intro i sm hm; simp [specScores] at hm
  | cons m ms ih =>
    intro i sm hm
    rcases List.mem_cons.mp hm with rfl | hm
    · exact ⟨0, m, rfl, by rw [Nat.add_zero]⟩
    · rcases ih (i + 1) sm hm with ⟨j, m2, hget, hsm⟩
      refine ⟨j + 1, m2, hget, ?_⟩
      rw [hsm]
      have hidx : i + 1 + j = i + (j + 1) := by omega
      rw [hidx]

/-- C8 (amended): every scored entry the Beginner (Easy) pipeline produces
is one of the input moves, scored as TWICE the captured piece's value, plus
50 for check, 10000 for checkmate, minus 5000 for draw, plus the fresh
jitter draw scaled by 50 — with no capturer-relative capture bonus and no
positional term. -/
theorem claim_C8 (ap : GameView → Move → GameView) (histLen : ℕ) (jit : ℕ → ℚ)
    (moves : List Move) (s : EngineSt) (sm : ScoredMove)
    (hm : sm ∈ (evaluateAllMoves ap Difficulty.Easy histLen jit moves s).1) :
    ∃ j m, moves.get? j = some m ∧ sm.move = m ∧
      sm.score =
        (match m.captured with
         | some c => (PIECE_VALUES c : ℚ) * 2
         | none => 0) +
        ((if (ap s.view m).isCheck then 50 else 0) +
         (if (ap s.view m).isCheckmate then 10000 else 0) +
         (if (ap s.view m).isDraw then -5000 else 0)) + jit j * 50 := by
  unfold evaluateAllMoves at hm
  rw [evalLoop_eq_specScores] at hm
  have hm2 := (sortDesc_perm _).mem_iff.mp hm
  rcases mem_specScores ap Difficulty.Easy histLen jit s.view moves 0 sm hm2 with
    ⟨j, m, hget, rfl⟩
  refine ⟨j, m, hget, rfl, ?_⟩
  show evaluateBasicPosition m (ap s.view m) + jit (0 + j) * 50 = _
  rw [Nat.zero_add, evaluateBasicPosition]
  ring

/-- Witness for C8 at a concrete capture: the pipeline scores the
queen-capturing pawn move 1800 (twice the queen's value). -/
theorem claim_C8_witness :
    ∃ j m, [c8move].get? j = some m ∧ (ScoredMove.mk c8move 1800).move = m ∧
      (ScoredMove.mk c8move 1800).score =
        (match m.captured with
         | some c => (PIECE_VALUES c : ℚ) * 2
         | none => 0) +
        (((if (((fun _ _ => c8view) (EngineSt.mk c8view []).view m).isCheck : Bool)
             then 50 else 0) +
          (if (((fun _ _ => c8view) (EngineSt.mk c8view []).view m).isCheckmate : Bool)
             then 10000 else 0) +
          (if (((fun _ _ => c8view) (EngineSt.mk c8view []).view m).isDraw : Bool)
             then -5000 else 0))) + (fun _ : ℕ => (0 : ℚ)) j * 50 := by
  refine claim_C8 (fun _ _ => c8view) 0 (fun _ => 0) [c8move] ⟨c8view, []⟩
    (ScoredMove.mk c8move 1800) ?_
  have hscore : scoreOf Difficulty.Easy 0 c8move c8view 0 = 1800 := by
    show evaluateBasicPosition c8move c8view + 0 * 50 = 1800
    norm_num [evaluateBasicPosition, c8move, c8view, PIECE_VALUES]
  unfold evaluateAllMoves
  rw [evalLoop_eq_specScores]
  show ScoredMove.mk c8move 1800 ∈ sortDesc [⟨c8move, scoreOf Difficulty.Easy 0 c8move c8view 0⟩]
  rw [hscore]
  exact List.mem_singleton.mpr rfl

/-- C8 counterexample: for a pawn capturing a queen with no check, mate or
draw and jitter 0, the Beginner score the code computes is 1800 (twice the
captured value), while the claim's material-difference formula (captured
value plus a tenth of the value gap) gives 980. -/
theorem claim_C8_counterexample :
    scoreOf Difficulty.Easy 0 c8move c8view 0 = 1800 ∧
    (PIECE_VALUES PieceType.q : ℚ) +
      ((PIECE_VALUES PieceType.q : ℚ) - (PIECE_VALUES PieceType.p : ℚ)) / 10 + 0 * 50 = 980 ∧
    (1800 : ℚ) ≠ 980 := by
  refine ⟨?_, by norm_num [PIECE_VALUES], by norm_num⟩
  show evaluateBasicPosition c8move c8view + 0 * 50 = 1800
  norm_num [evaluateBasicPosition, c8move, c8view, PIECE_VALUES]

/-! ### Bounds on the evaluation terms (towards the checkmate-dominance
claim C9) -/

theorem getD_abs_le (l : List ℤ) (h : ∀ x ∈ l, |x| ≤ 50) (i : ℕ) :
    |l.getD i 0| ≤ 50 := by
  by_cases hi : i < l.length
  · have hmem : l.getD i 0 ∈ l := by
      rw [List.getD_eq_getElem l 0 hi]
      exact List.getElem_mem hi
    exact h _ hmem
  · rw [List.getD_eq_default l 0 (le_of_not_lt hi)]
    norm_num

theorem cellScore_abs_le (e : Bool) (o : Option Piece) (sq : ℕ) :
    |cellScore e o sq| ≤ 50 * (if o = none then 0 else 1) := by
  match o with
  | none => simp [cellScore]
  | some pc =>
    rw [if_neg (Option.some_ne_none pc), mul_one]
    have hpawn : ∀ x ∈ PAWN_POSITION_SCORES, |x| ≤ 50 := by decide
    have hknight : ∀ x ∈ KNIGHT_POSITION_SCORES, |x| ≤ 50 := by decide
    have hbishop : ∀ x ∈ BISHOP_POSITION_SCORES, |x| ≤ 50 := by decide
    have hrook : ∀ x ∈ ROOK_POSITION_SCORES, |x| ≤ 50 := by decide
    have hqueen : ∀ x ∈ QUEEN_POSITION_SCORES, |x| ≤ 50 := by decide
    have hkmid : ∀ x ∈ KING_MIDDLEGAME_SCORES, |x| ≤ 50 := by decide
    have hkend : ∀ x ∈ KING_ENDGAME_SCORES, |x| ≤ 50 := by decide
    obtain ⟨t, c⟩ := pc
    cases t <;> cases c <;> cases e <;>
      simp only [cellScore, reduceCtorEq, if_false, if_true, eq_self_iff_true,
        Bool.false_eq_true, abs_neg] <;>
      (apply getD_abs_le
       assumption)

theorem sum_abs_bound (f : ℕ → ℤ) (g : ℕ → ℕ)
    (h : ∀ i, |f i| ≤ 50 * (g i : ℤ)) (l : List ℕ) :
    |(l.map f).sum| ≤ 50 * (((l.map g).sum : ℕ) : ℤ) := by
  induction l with
  | nil => simp
  | cons a t ih =>
    simp only [List.map_cons, List.sum_cons]
    have h1 := abs_add (f a) ((t.map f).sum)
    have h2 := h a
    push_cast
    push_cast at ih
    linarith

theorem boardScan_abs_le (e : Bool) (b : Board) :
    |boardScan e b| ≤ 50 * (pieceCount b : ℤ) := by
  unfold boardScan pieceCount
  apply sum_abs_bound
  intro row
  apply sum_abs_bound
  intro col
  have := cellScore_abs_le e (cellAt b row col) (row * 8 + col)
  split_ifs at this ⊢ with hc
  · simpa using this
  · simpa using this

theorem pieceValue_nonneg (t : PieceType) : 0 ≤ PIECE_VALUES t := by
  cases t <;> norm_num [PIECE_VALUES]

theorem pieceValue_le_of_ne_king (t : PieceType) (h : t ≠ PieceType.k) :
    PIECE_VALUES t ≤ 900 := by
  cases t
  case k => exact absurd rfl h
  all_goals norm_num [PIECE_VALUES]

theorem basic_ge_of_mate (m : Move) (g : GameView)
    (h1 : g.isCheckmate = true) (h2 : g.isDraw = false) :
    10000 ≤ evaluateBasicPosition m g := by
  unfold evaluateBasicPosition
  rw [h1, h2]
  have hcap : (0 : ℚ) ≤ (match m.captured with
      | some c => (PIECE_VALUES c : ℚ) * 2
      | none => 0) := by
    rcases m.captured with _ | c
    · norm_num
    · have := pieceValue_nonneg c
      have hc : (0 : ℚ) ≤ (PIECE_VALUES c : ℚ) := by exact_mod_cast this
      simp only []
      linarith
  have hchk : (0 : ℚ) ≤ if g.isCheck then 50 else 0 := by split_ifs <;> norm_num
  simp only [if_true, Bool.false_eq_true, if_false]
  linarith

theorem basic_le_of_nonmate (m : Move) (g : GameView)
    (h1 : g.isCheckmate = false) (hcap : m.captured ≠ some PieceType.k) :
    evaluateBasicPosition m g ≤ 1850 := by
  unfold evaluateBasicPosition
  rw [h1]
  have hc : (match m.captured with
      | some c => (PIECE_VALUES c : ℚ) * 2
      | none => 0) ≤ 1800 := by
    rcases hcm : m.captured with _ | c
    · norm_num
    · have hck : c ≠ PieceType.k := by
        intro h
        exact hcap (by rw [hcm, h])
      have := pieceValue_le_of_ne_king c hck
      have hcq : (PIECE_VALUES c : ℚ) ≤ 900 := by exact_mod_cast this
      show (PIECE_VALUES c : ℚ) * 2 ≤ 1800
      linarith
  have hchk : (if g.isCheck then (50 : ℚ) else 0) ≤ 50 := by split_ifs <;> norm_num
  have hdr : (if g.isDraw then (-5000 : ℚ) else 0) ≤ 0 := by split_ifs <;> norm_num
  simp only [Bool.false_eq_true, if_false]
  linarith

theorem ks_le (g : GameView) (e : Bool) : evaluateKingSafety g e ≤ 60 := by
  unfold evaluateKingSafety
  have ha : (0 : ℤ) ≤ (countAttacksNearKing g : ℤ) := Int.ofNat_nonneg _
  split_ifs <;> linarith

theorem ks_nonneg_of_no_moves (g : GameView) (e : Bool) (h : g.moves = []) :
    0 ≤ evaluateKingSafety g e := by
  unfold evaluateKingSafety
  have ha : countAttacksNearKing g = 0 := by
    unfold countAttacksNearKing
    rw [h]
    rfl
  rw [ha]
  split_ifs <;> norm_num

theorem map_sum_le {α R : Type} [LinearOrderedCommRing R]
    (f : α → R) (c : R) (l : List α) (h : ∀ x ∈ l, f x ≤ c) :
    (l.map f).sum ≤ (l.length : R) * c := by
  have h2 := List.sum_le_card_nsmul (l.map f) c (by
    intro x hx
    rcases List.mem_map.mp hx with ⟨a, ha, rfl⟩
    exact h a ha)
  rw [List.length_map, nsmul_eq_mul] at h2
  exact h2

theorem le_map_sum {α R : Type} [LinearOrderedCommRing R]
    (f : α → R) (c : R) (l : List α) (h : ∀ x ∈ l, c ≤ f x) :
    (l.length : R) * c ≤ (l.map f).sum := by
  have h2 := List.card_nsmul_le_sum (l.map f) c (by
    intro x hx
    rcases List.mem_map.mp hx with ⟨a, ha, rfl⟩
    exact h a ha)
  rw [List.length_map, nsmul_eq_mul] at h2
  exact h2

theorem filePenalty_bounds (position : List Char) (i : ℕ) :
    -35 ≤ filePenalty position i ∧ filePenalty position i ≤ 0 := by
  simp only [filePenalty]
  split_ifs <;> norm_num

theorem pawn_le (g : GameView) : evaluatePawnStructure g ≤ 0 := by
  unfold evaluatePawnStructure
  have := map_sum_le (filePenalty (fenBoardField g.fen)) 0 (List.range 8)
    (fun i _ => (filePenalty_bounds _ i).2)
  simpa using this

theorem pawn_ge (g : GameView) : -280 ≤ evaluatePawnStructure g := by
  unfold evaluatePawnStructure
  have := le_map_sum (filePenalty (fenBoardField g.fen)) (-35) (List.range 8)
    (fun i _ => (filePenalty_bounds _ i).1)
  simp only [List.length_range] at this
  norm_num at this
  linarith

theorem openingContrib_le (m : Move) : openingContrib 1 m ≤ 70 := by
  unfold openingContrib
  have hAD : (if m.piece = PieceType.n ∨ m.piece = PieceType.b then (30 : ℚ) * 1 else 0) +
      (if m.piece = PieceType.p ∧ ["d4", "d5", "e4", "e5"].contains m.toSq
       then (25 : ℚ) * 1 else 0) ≤ 30 := by
    split_ifs with h1 h2
    · exfalso
      rcases h1 with h1 | h1 <;> (rw [h1] at h2; exact absurd h2.1 (by decide))
    · norm_num
    · norm_num
    · norm_num
  have hB : (if strIncludes m.san "O-O" || strIncludes m.san "O-O-O"
      then (40 : ℚ) * 1 else 0) ≤ 40 := by
    split_ifs <;> norm_num
  have hC : (if m.piece = PieceType.q ∧ m.captured = none
      then (-30 : ℚ) * 1 else 0) ≤ 0 := by
    split_ifs <;> norm_num
  linarith

theorem opening_le (g : GameView) :
    evaluateOpeningPrinciples g 1 ≤ 70 * (g.moves.length : ℚ) := by
  unfold evaluateOpeningPrinciples
  have := map_sum_le (openingContrib 1) 70 g.moves (fun m _ => openingContrib_le m)
  linarith

theorem opening_nil (g : GameView) (w : ℚ) (h : g.moves = []) :
    evaluateOpeningPrinciples g w = 0 := by
  unfold evaluateOpeningPrinciples
  rw [h]
  rfl

/-- Bounds on `evaluateIntermediatePosition` for a checkmating move
(no replies exist) on a board of at most 32 pieces. -/
theorem inter_ge_of_mate (g : GameView) (histLen : ℕ)
    (hmoves : g.moves = []) (hpc : pieceCount g.board ≤ 32) :
    -1880 ≤ evaluateIntermediatePosition g histLen := by
  unfold evaluateIntermediatePosition
  have hpos : -1600 ≤ (evaluatePosition g : ℚ) := by
    have h1 := (abs_le.mp (boardScan_abs_le (isInEndgame g.fen) g.board)).1
    have h2 : (-1600 : ℤ) ≤ -(50 * (pieceCount g.board : ℤ)) := by omega
    have : (-1600 : ℤ) ≤ evaluatePosition g := le_trans h2 (by unfold evaluatePosition; linarith)
    exact_mod_cast this
  have hks : (0 : ℚ) ≤ (evaluateKingSafety g (isInEndgame g.fen) : ℚ) := by
    exact_mod_cast ks_nonneg_of_no_moves g _ hmoves
  have hpawn : (-280 : ℚ) ≤ (evaluatePawnStructure g : ℚ) := by
    exact_mod_cast pawn_ge g
  have hmob : (0 : ℚ) ≤ (g.moves.length : ℚ) * 2 := by positivity
  have hop : (if histLen < 10 then evaluateOpeningPrinciples g 1 else 0) = 0 := by
    split_ifs <;> simp [opening_nil g 1 hmoves]
  rw [hop]
  linarith

/-- Upper bound on `evaluateIntermediatePosition` for an arbitrary reply
position with bounded mobility. -/
theorem inter_le (g : GameView) (histLen : ℕ) (hpc : pieceCount g.board ≤ 32) :
    evaluateIntermediatePosition g histLen ≤
      1660 + 2 * (g.moves.length : ℚ) +
      (if histLen < 10 then 70 * (g.moves.length : ℚ) else 0) := by
  unfold evaluateIntermediatePosition
  have hpos : (evaluatePosition g : ℚ) ≤ 1600 := by
    have h1 := (abs_le.mp (boardScan_abs_le (isInEndgame g.fen) g.board)).2
    have h2 : 50 * (pieceCount g.board : ℤ) ≤ 1600 := by omega
    have : evaluatePosition g ≤ (1600 : ℤ) := le_trans (by unfold evaluatePosition; linarith) h2
    exact_mod_cast this
  have hks : (evaluateKingSafety g (isInEndgame g.fen) : ℚ) ≤ 60 := by
    exact_mod_cast ks_le g _
  have hpawn : (evaluatePawnStructure g : ℚ) ≤ 0 := by
    exact_mod_cast pawn_le g
  have hop : (if histLen < 10 then evaluateOpeningPrinciples g 1 else 0) ≤
      (if histLen < 10 then 70 * (g.moves.length : ℚ) else 0) := by
    split_ifs
    · exact opening_le g
    · exact le_refl 0
  linarith

/-- C9: under the oracle-coherence and chess-reality hypotheses (a mating
move leaves no replies and is not simultaneously flagged drawn; boards
carry at most 32 pieces; a reply position has at most 218 legal moves, at
most 60 while still in the opening-principles window; captured pieces are
never kings), a checkmating candidate's score strictly exceeds every
non-mating candidate's score at every tier. -/
theorem claim_C9 (d : Difficulty) (histLen : ℕ) (m mo : Move) (gm go : GameView)
    (jm jo : ℚ)
    (hmate : gm.isCheckmate = true) (hmoves : gm.moves = [])
    (hdraw : gm.isDraw = false) (homate : go.isCheckmate = false)
    (hpc1 : pieceCount gm.board ≤ 32) (hpc2 : pieceCount go.board ≤ 32)
    (hcap : mo.captured ≠ some PieceType.k)
    (hmob : go.moves.length ≤ 218)
    (hopen : histLen < 10 → go.moves.length ≤ 60)
    (hjm0 : 0 ≤ jm) (hjo0 : 0 ≤ jo) (hjo1 : jo < 1) :
    scoreOf d histLen mo go jo < scoreOf d histLen m gm jm := by
  have hbm := basic_ge_of_mate m gm hmate hdraw
  have hbo := basic_le_of_nonmate mo go homate hcap
  have hmobq : (go.moves.length : ℚ) ≤ 218 := by exact_mod_cast hmob
  cases d
  · show evaluateBasicPosition mo go + jo * 50 <
      evaluateBasicPosition m gm + jm * 50
    linarith
  · show evaluateBasicPosition mo go + evaluateIntermediatePosition go histLen + jo * 20 <
      evaluateBasicPosition m gm + evaluateIntermediatePosition gm histLen + jm * 20
    have him := inter_ge_of_mate gm histLen hmoves hpc1
    have hio := inter_le go histLen hpc2
    by_cases hh : histLen < 10
    · have hL : (go.moves.length : ℚ) ≤ 60 := by exact_mod_cast hopen hh
      rw [if_pos hh] at hio
      linarith
    · rw [if_neg hh] at hio
      linarith
  · show evaluateBasicPosition mo go + (evaluateAdvancedPosition go false : ℚ) + jo * 5 <
      evaluateBasicPosition m gm + (evaluateAdvancedPosition gm false : ℚ) + jm * 5
    have hsm : -1600 ≤ (evaluateAdvancedPosition gm false : ℚ) := by
      have h1 := (abs_le.mp (boardScan_abs_le false gm.board)).1
      have h2 : (-1600 : ℤ) ≤ -(50 * (pieceCount gm.board : ℤ)) := by omega
      have : (-1600 : ℤ) ≤ evaluateAdvancedPosition gm false :=
        le_trans h2 (by unfold evaluateAdvancedPosition; linarith)
      exact_mod_cast this
    have hso : (evaluateAdvancedPosition go false : ℚ) ≤ 1600 := by
      have h1 := (abs_le.mp (boardScan_abs_le false go.board)).2
      have h2 : 50 * (pieceCount go.board : ℤ) ≤ 1600 := by omega
      have : evaluateAdvancedPosition go false ≤ (1600 : ℤ) :=
        le_trans (by unfold evaluateAdvancedPosition; linarith) h2
      exact_mod_cast this
    linarith

/-- Witness for C9: a concrete mate view against a concrete quiet
capture-free reply view at the Medium tier. -/
theorem claim_C9_witness :
    scoreOf Difficulty.Medium 0 hardMove
      ⟨emptyBoard, "", false, false, false, [c3move]⟩ (1 / 2) <
    scoreOf Difficulty.Medium 0 c3move
      ⟨emptyBoard, "", true, true, false, []⟩ 0 :=
  claim_C9 Difficulty.Medium 0 c3move hardMove
    ⟨emptyBoard, "", true, true, false, []⟩
    ⟨emptyBoard, "", false, false, false, [c3move]⟩ 0 (1 / 2)
    rfl rfl rfl rfl (by decide) (by decide) (by decide) (by decide)
    (fun _ => by decide) (by norm_num) (by norm_num) (by norm_num)

end CG
